import Mathlib

/-!
Verification of the ai-lab GPU inference gateway core
(`apps/ai-api/services/{orchestrator,queue,worker}.py`) against its
natural-language specification.

The Python code is shallowly embedded: Redis state and the orchestrator's
in-process registries become explicit Lean structures, every stateful
function becomes a pure state-passing function, `asyncio.Lock` acquisition
is modelled explicitly (an attempt to re-acquire a held non-reentrant lock
is a deadlock), adapter calls and the external GPU are modelled through a
memory-accounting parameter and an explicit adapter-call trace.
Floating-point quantities (memory in MB, task progress) are modelled as
rationals; timestamps as naturals.
-/

namespace AiLab

/-! ### Enums (models/management.py, models/queue.py) -/

/-- `ModelType` from models/management.py. -/
inductive ModelType where
  | llm
  | image
  | image2image
  | video
deriving DecidableEq, Repr

/-- `ModelStatus` from models/management.py. -/
inductive ModelStatus where
  | not_loaded
  | loading
  | loaded
  | unloading
  | error
deriving DecidableEq, Repr

/-- `TaskType` from models/queue.py. -/
inductive TaskType where
  | video
  | image
  | image2image
  | llm_compare
deriving DecidableEq, Repr

/-- `TaskStatus` from models/queue.py. -/
inductive TaskStatus where
  | pending
  | processing
  | completed
  | failed
  | cancelled
deriving DecidableEq, Repr, Fintype

/-- The terminal statuses, i.e. the tuple
`(COMPLETED, FAILED, CANCELLED)` tested in queue.py. -/
def TaskStatus.isTerminal : TaskStatus → Bool
  | .completed => true
  | .failed => true
  | .cancelled => true
  | _ => false

/-! ### Association-list helpers modelling Python dict / Redis hash keys -/

/-- Lookup in an insertion-ordered dictionary. -/
def lookupAssoc {α : Type} (k : String) : List (String × α) → Option α
  | [] => none
  | (k', v) :: rest => if k' = k then some v else lookupAssoc k rest

/-- Dictionary assignment: overwrite in place, else append (Python dict /
Redis `hset` semantics). -/
def setAssoc {α : Type} (k : String) (v : α) : List (String × α) → List (String × α)
  | [] => [(k, v)]
  | (k', v') :: rest => if k' = k then (k, v) :: rest else (k', v') :: setAssoc k v rest

theorem lookupAssoc_setAssoc_self {α : Type} (k : String) (v : α) (l : List (String × α)) :
    lookupAssoc k (setAssoc k v l) = some v := by
  induction l with
  | nil => simp [setAssoc, lookupAssoc]
  | cons hd tl ih =>
    by_cases h : hd.1 = k
    · simp [setAssoc, lookupAssoc, h]
    · simp [setAssoc, lookupAssoc, h, ih]

/-! ### Task records and the Redis-backed store (services/queue.py)

A `Task` mirrors the fields of the `Task` pydantic model; `params` and
`result` are opaque serialised blobs. The `Store` holds the task hashes
(`task:{id}`), the pending FIFO list (`queue:pending`), the processing set
(`queue:processing`) and the per-user history lists (`user:{uid}:tasks`).
-/

structure Task where
  id : String
  type : TaskType
  status : TaskStatus
  progress : ℚ
  params : String
  result : Option String
  error : Option String
  created_at : Nat
  updated_at : Nat
  user_id : Option String
deriving DecidableEq, Repr

structure Store where
  tasks : List (String × Task)
  pending : List String
  processing : List String
  userTasks : List (String × List String)
deriving DecidableEq, Repr

def emptyStore : Store := ⟨[], [], [], []⟩

/-- `MAX_USER_TASKS_HISTORY` from queue.py. -/
def MAX_USER_TASKS_HISTORY : Nat := 100

/-- Redis `sadd`: insert if absent. -/
def saddSet (x : String) (l : List String) : List String :=
  if x ∈ l then l else l ++ [x]

/-- `create_task` from queue.py. The fresh uuid and the wall clock are
passed in explicitly; TTL bookkeeping is not modelled (an expired record is
simply absent from `tasks`). -/
def create_task (task_id : String) (task_type : TaskType) (params : String)
    (user_id : Option String) (now : Nat) (s : Store) : Task × Store :=
  let task : Task :=
    { id := task_id, type := task_type, status := .pending, progress := 0,
      params := params, result := none, error := none,
      created_at := now, updated_at := now, user_id := user_id }
  let s1 : Store :=
    { s with tasks := setAssoc task_id task s.tasks,
             pending := s.pending ++ [task_id] }
  let s2 : Store :=
    match user_id with
    | some uid =>
        { s1 with userTasks :=
            setAssoc uid ((task_id :: ((lookupAssoc uid s1.userTasks).getD [])).take
              MAX_USER_TASKS_HISTORY) s1.userTasks }
    | none => s1
  (task, s2)

/-- `get_task` from queue.py: `hgetall` on a missing or expired key gives
an empty hash, reported as `none`. -/
def get_task (task_id : String) (s : Store) : Option Task :=
  lookupAssoc task_id s.tasks

/-- `update_task` from queue.py: applies exactly the supplied fields,
refreshes `updated_at`, and maintains the processing set from the supplied
status (`PROCESSING` adds, terminal removes). -/
def update_task (task_id : String) (status : Option TaskStatus) (progress : Option ℚ)
    (result : Option String) (error : Option String) (now : Nat) (s : Store) :
    Option Task × Store :=
  match get_task task_id s with
  | none => (none, s)
  | some task =>
    let s1 : Store :=
      match status with
      | some st =>
          if st = TaskStatus.processing then
            { s with processing := saddSet task_id s.processing }
          else if st = TaskStatus.completed ∨ st = TaskStatus.failed ∨
              st = TaskStatus.cancelled then
            { s with processing := s.processing.filter (fun y => y ≠ task_id) }
          else s
      | none => s
    let task' : Task :=
      { task with
        updated_at := now,
        status := match status with | some st => st | none => task.status,
        progress := match progress with | some p => p | none => task.progress,
        result := match result with | some r => some r | none => task.result,
        error := match error with | some e => some e | none => task.error }
    (some task', { s1 with tasks := setAssoc task_id task' s1.tasks })

/-- `cancel_task` from queue.py: no-op on a terminal task, otherwise
`lrem`-by-value from the pending queue (all occurrences) and transition to
`CANCELLED` via `update_task`. -/
def cancel_task (task_id : String) (now : Nat) (s : Store) : Option Task × Store :=
  match get_task task_id s with
  | none => (none, s)
  | some task =>
    if task.status.isTerminal then (some task, s)
    else
      let s1 : Store := { s with pending := s.pending.filter (fun y => y ≠ task_id) }
      update_task task_id (some .cancelled) none none none now s1

/-- `get_next_pending_task` from queue.py: `lpop` on the pending list. -/
def get_next_pending_task (s : Store) : Option String × Store :=
  match s.pending with
  | [] => (none, s)
  | h :: t => (some h, { s with pending := t })

/-! C10: update of a missing task -/

/-- C10: when `get_task` returns `none` for an id, `update_task` on that id
returns `none` and the store is bit-for-bit unchanged: no hash field
(including `updated_at`) is written and the processing set is untouched,
whatever field arguments were supplied. -/
theorem c10_update_task_missing_id_writes_nothing (task_id : String)
    (status : Option TaskStatus) (progress : Option ℚ)
    (result : Option String) (error : Option String) (now : Nat) (s : Store)
    (hget : get_task task_id s = none) :
    update_task task_id status progress result error now s = (none, s) := by
  unfold update_task
  rw [hget]

/-- Witness for C10 at a concrete store and argument tuple. -/
theorem c10_update_task_missing_id_writes_nothing_witness :
    update_task "t42" (some .completed) (some 100) (some "r") (some "e") 7 emptyStore
      = (none, emptyStore) :=
  c10_update_task_missing_id_writes_nothing "t42" (some .completed) (some 100)
    (some "r") (some "e") 7 emptyStore (by decide)

/-! C5: cancellation of a pending task -/

/-- The store after `k` successive calls to `get_next_pending_task`. -/
def popIter : Nat → Store → Store
  | 0, s => s
  | k + 1, s => (get_next_pending_task (popIter k s)).2

theorem popIter_pending (s : Store) : ∀ k : Nat, (popIter k s).pending = s.pending.drop k := by
  intro k
  induction k with
  | zero => simp [popIter]
  | succ k ih =>
    show (get_next_pending_task (popIter k s)).2.pending = _
    rcases hq : (popIter k s).pending with _ | ⟨h, t⟩
    · simp only [get_next_pending_task, hq]
      rw [hq] at ih
      rw [← List.drop_drop]
      rw [← ih]
      rfl
    · simp only [get_next_pending_task, hq]
      rw [hq] at ih
      rw [← List.drop_drop, ← ih]
      rfl

theorem get_next_ne_of_not_mem (s : Store) (x : String) (hx : x ∉ s.pending) (k : Nat) :
    (get_next_pending_task (popIter k s)).1 ≠ some x := by
  have hp := popIter_pending s k
  rcases hq : (popIter k s).pending with _ | ⟨h, t⟩
  · simp only [get_next_pending_task, hq]
    exact fun hcontra => by cases hcontra
  · simp only [get_next_pending_task, hq]
    intro hcontra
    have hhx : h = x := by
      have := congrArg (fun o => o.getD "") hcontra
      simpa using this
    apply hx
    rw [hq] at hp
    have hmem : h ∈ s.pending.drop k := by rw [← hp]; exact List.mem_cons_self h t
    exact hhx ▸ List.mem_of_mem_drop hmem

/-- C5: `cancel_task` on a non-terminal task removes every occurrence of its
id from the pending queue and records status `CANCELLED`, so no subsequent
`get_next_pending_task` call (after any number of intervening dequeues)
returns the id; on a task already terminal, `cancel_task` returns the task
unchanged and modifies nothing. -/
theorem c5_cancel_task_spec (task_id : String) (now : Nat) (s : Store) (t : Task)
    (hget : get_task task_id s = some t) :
    (t.status.isTerminal = true → cancel_task task_id now s = (some t, s)) ∧
    (t.status.isTerminal = false →
      ∃ t' s', cancel_task task_id now s = (some t', s') ∧
        t'.status = .cancelled ∧
        get_task task_id s' = some t' ∧
        task_id ∉ s'.pending ∧
        ∀ k : Nat, (get_next_pending_task (popIter k s')).1 ≠ some task_id) := by
  constructor
  · intro hterm
    simp [cancel_task, hget, hterm]
  · intro hterm
    have hfilter : task_id ∉ s.pending.filter (fun y => y ≠ task_id) := by
      intro hmem
      have := List.of_mem_filter hmem
      simp at this
    refine ⟨{ t with updated_at := now, status := .cancelled },
      { s with tasks := setAssoc task_id
                 { t with updated_at := now, status := .cancelled } s.tasks,
               pending := s.pending.filter (fun y => y ≠ task_id),
               processing := s.processing.filter (fun y => y ≠ task_id) },
      ?_, rfl, ?_, ?_, ?_⟩
    · have hget1 : lookupAssoc task_id s.tasks = some t := hget
      unfold cancel_task
      rw [hget]
      simp only [hterm, Bool.false_eq_true, if_false, update_task, get_task, hget1]
      simp
    · exact lookupAssoc_setAssoc_self task_id _ _
    · exact hfilter
    · exact fun k => get_next_ne_of_not_mem _ task_id hfilter k

/-- Witness for C5: a pending task in a two-element queue; after
cancellation the id is gone and never dequeued. -/
theorem c5_cancel_task_spec_witness :
    let s0 := (create_task "a" .image "" none 0 emptyStore).2
    let s1 := (create_task "b" .video "" none 1 s0).2
    let t := (create_task "a" .image "" none 0 emptyStore).1
    (t.status.isTerminal = true → cancel_task "a" 2 s1 = (some t, s1)) ∧
    (t.status.isTerminal = false →
      ∃ t' s', cancel_task "a" 2 s1 = (some t', s') ∧
        t'.status = .cancelled ∧
        get_task "a" s' = some t' ∧
        "a" ∉ s'.pending ∧
        ∀ k : Nat, (get_next_pending_task (popIter k s')).1 ≠ some "a") :=
  c5_cancel_task_spec "a" 2 _ _ (by decide)

/-! ### C8: the worker loop against the pending queue (worker.py)

`worker_loop` alternates `get_next_pending_task` with, per popped id,
either the saturation requeue (`r.rpush(PENDING_QUEUE_KEY, task_id)` in
`process_task`) or the launch of a handler. Tasks enter the queue through
`create_task`. Events abstract the interleaving; each event's effect on
the store is the corresponding queue.py / worker.py code.
-/

inductive WQEvent where
  | create (id : String)
  | poll (requeue : Bool)
deriving DecidableEq, Repr

structure DispatchState where
  store : Store
  dispatched : List String
deriving DecidableEq, Repr

/-- One worker-loop turn: a `create` event runs `create_task`; a `poll`
event runs `get_next_pending_task` and then either requeues the id at the
tail (the saturated-cap branch of `process_task`) or hands it to a
handler (recorded in `dispatched`). -/
def stepDispatch (typeOf : String → TaskType) (now : Nat) :
    DispatchState → WQEvent → DispatchState
  | ⟨s, d⟩, .create id => ⟨(create_task id (typeOf id) "" none now s).2, d⟩
  | ⟨s, d⟩, .poll requeue =>
    match get_next_pending_task s with
    | (none, s') => ⟨s', d⟩
    | (some id, s') =>
      if requeue then ⟨{ s' with pending := s'.pending ++ [id] }, d⟩
      else ⟨s', d ++ [id]⟩

def runDispatch (typeOf : String → TaskType) (now : Nat)
    (st : DispatchState) (evs : List WQEvent) : DispatchState :=
  evs.foldl (stepDispatch typeOf now) st

/-- The trace condition of C8: no poll ever requeues a task of type `T`
(type `T` is never saturated while one of its tasks is at the head). -/
def noRequeueOfType (typeOf : String → TaskType) (T : TaskType) (now : Nat) :
    DispatchState → List WQEvent → Bool
  | _, [] => true
  | st, ev :: rest =>
    (match ev with
     | .poll true =>
       (match st.store.pending with
        | [] => true
        | h :: _ => !(typeOf h == T))
     | _ => true)
    && noRequeueOfType typeOf T now (stepDispatch typeOf now st ev) rest

/-- The ids created by the event trace, in creation order. -/
def createdIds : List WQEvent → List String
  | [] => []
  | .create id :: rest => id :: createdIds rest
  | .poll _ :: rest => createdIds rest

theorem dispatch_fifo_invariant (typeOf : String → TaskType) (T : TaskType) (now : Nat) :
    ∀ (evs : List WQEvent) (st : DispatchState),
      noRequeueOfType typeOf T now st evs = true →
      (runDispatch typeOf now st evs).dispatched.filter (fun id => typeOf id == T) ++
        (runDispatch typeOf now st evs).store.pending.filter (fun id => typeOf id == T)
      = st.dispatched.filter (fun id => typeOf id == T) ++
        (st.store.pending.filter (fun id => typeOf id == T) ++
          (createdIds evs).filter (fun id => typeOf id == T)) := by
  intro evs
  induction evs with
  | nil =>
    intro st h
    simp [runDispatch, createdIds]
  | cons ev rest ih =>
    intro st h
    simp only [noRequeueOfType, Bool.and_eq_true] at h
    obtain ⟨hev, hrest⟩ := h
    have hrun : runDispatch typeOf now st (ev :: rest)
        = runDispatch typeOf now (stepDispatch typeOf now st ev) rest := rfl
    rw [hrun]
    rw [ih (stepDispatch typeOf now st ev) hrest]
    obtain ⟨s, d⟩ := st
    cases ev with
    | create id =>
      simp only [stepDispatch, create_task, createdIds]
      simp [List.filter_append, List.filter_cons]
      by_cases hT : typeOf id = T <;> simp [hT]
    | poll requeue =>
      rcases hp : s.pending with _ | ⟨h0, tl⟩
      · cases requeue <;>
          simp [stepDispatch, get_next_pending_task, hp, createdIds]
      · cases requeue with
        | false =>
          simp only [stepDispatch, get_next_pending_task, hp, if_false, createdIds]
          simp [List.filter_append, List.filter_cons]
          by_cases hT : typeOf h0 = T <;> simp [hT]
        | true =>
          have hT : (typeOf h0 == T) = false := by
            simp only [hp] at hev
            cases hq : typeOf h0 == T
            · rfl
            · rw [hq] at hev; simp at hev
          simp only [stepDispatch, get_next_pending_task, hp, if_true, createdIds]
          simp [List.filter_append, List.filter_cons, hT]

/-- C8: starting from an empty store, along any worker trace in which no
task of type `T` is ever requeued, the type-`T` ids handed to handlers
followed by the type-`T` ids still pending are exactly the type-`T`
creations in creation order — so type-`T` tasks are dispatched in FIFO
creation order. -/
theorem c8_fifo_dispatch_within_type (typeOf : String → TaskType) (T : TaskType)
    (now : Nat) (evs : List WQEvent)
    (hnoreq : noRequeueOfType typeOf T now ⟨emptyStore, []⟩ evs = true) :
    (runDispatch typeOf now ⟨emptyStore, []⟩ evs).dispatched.filter
        (fun id => typeOf id == T) ++
      (runDispatch typeOf now ⟨emptyStore, []⟩ evs).store.pending.filter
        (fun id => typeOf id == T)
      = (createdIds evs).filter (fun id => typeOf id == T) := by
  have h := dispatch_fifo_invariant typeOf T now evs ⟨emptyStore, []⟩ hnoreq
  simpa [emptyStore] using h

/-- Witness for C8: a video task at the head is requeued once while two
image tasks are dispatched in creation order. -/
theorem c8_fifo_dispatch_within_type_witness :
    let typeOf : String → TaskType := fun id => if id = "v1" then .video else .image
    let evs : List WQEvent :=
      [.create "v1", .create "i1", .create "i2", .poll true, .poll false, .poll false]
    (runDispatch typeOf 0 ⟨emptyStore, []⟩ evs).dispatched.filter
        (fun id => typeOf id == TaskType.image) ++
      (runDispatch typeOf 0 ⟨emptyStore, []⟩ evs).store.pending.filter
        (fun id => typeOf id == TaskType.image)
      = (createdIds evs).filter (fun id => typeOf id == TaskType.image) :=
  c8_fifo_dispatch_within_type _ .image 0 _ (by decide)

/-! ### C4: per-type concurrency caps (worker.py) -/

/-- `CONCURRENCY_LIMITS` from worker.py. -/
def CONCURRENCY_LIMITS : TaskType → Nat
  | .video => 1
  | .image => 2
  | .image2image => 2
  | .llm_compare => 1

/-- The worker events touching `_processing_counts`: `dispatch t` is
`process_task` reaching the cap check for a type-`t` task (requeue with no
counter change when saturated, increment otherwise — check and increment
are adjacent with no await between them, so they are atomic on the event
loop); `finish t` is the `finally` decrement after the handler ends. -/
inductive WEvent where
  | dispatch (t : TaskType)
  | finish (t : TaskType)
deriving DecidableEq, Repr

def stepCounts (c : TaskType → Nat) : WEvent → (TaskType → Nat)
  | .dispatch t =>
    if CONCURRENCY_LIMITS t ≤ c t then c
    else fun u => if u = t then c u + 1 else c u
  | .finish t => fun u => if u = t then c u - 1 else c u

/-- `_processing_counts` after a worker-event sequence, from the all-zero
initial dict in worker.py. The counter is incremented before a handler is
launched and decremented after it finishes, so at every instant the number
of in-flight handlers of a type is bounded by the counter. -/
def workerCounts (evs : List WEvent) : TaskType → Nat :=
  evs.foldl stepCounts (fun _ => 0)

theorem stepCounts_le (c : TaskType → Nat) (ev : WEvent)
    (h : ∀ u, c u ≤ CONCURRENCY_LIMITS u) :
    ∀ u, stepCounts c ev u ≤ CONCURRENCY_LIMITS u := by
  intro u
  cases ev with
  | dispatch t =>
    simp only [stepCounts]
    by_cases hsat : CONCURRENCY_LIMITS t ≤ c t
    · simp only [if_pos hsat]; exact h u
    · simp only [if_neg hsat]
      by_cases hu : u = t
      · subst hu
        simp
        omega
      · simp only [if_neg hu]; exact h u
  | finish t =>
    simp only [stepCounts]
    by_cases hu : u = t
    · subst hu
      simp
      have := h u
      omega
    · simp only [if_neg hu]; exact h u

theorem foldl_stepCounts_le :
    ∀ (evs : List WEvent) (c : TaskType → Nat),
      (∀ u, c u ≤ CONCURRENCY_LIMITS u) →
      ∀ u, (evs.foldl stepCounts c) u ≤ CONCURRENCY_LIMITS u := by
  intro evs
  induction evs with
  | nil => intro c h u; exact h u
  | cons ev rest ih =>
    intro c h u
    exact ih (stepCounts c ev) (stepCounts_le c ev h) u

/-- C4: at every instant along every worker-event sequence, the in-process
counter of each task type — which brackets every in-flight handler of that
type — never exceeds its compile-time cap: 1 for video, 2 for image, 2 for
image2image, 1 for llm_compare. -/
theorem c4_concurrency_caps :
    (∀ (evs : List WEvent) (t : TaskType), workerCounts evs t ≤ CONCURRENCY_LIMITS t) ∧
    CONCURRENCY_LIMITS .video = 1 ∧ CONCURRENCY_LIMITS .image = 2 ∧
    CONCURRENCY_LIMITS .image2image = 2 ∧ CONCURRENCY_LIMITS .llm_compare = 1 := by
  refine ⟨?_, rfl, rfl, rfl, rfl⟩
  intro evs t
  exact foldl_stepCounts_le evs (fun _ => 0) (fun u => by cases u <;> simp [CONCURRENCY_LIMITS]) t

/-! ### C3 / C9: task lifecycle under the store updates the repository performs

The repository touches a task record only through these calls:
`update_task(id, status=PROCESSING)`, `update_task(id, status=COMPLETED,
progress=100, result)`, `update_task(id, status=FAILED, error)` (all in
`process_task`), progress-only `update_task(id, progress=p)` from the
handlers, and `cancel_task(id)` from the cancel endpoint.
-/

inductive QOp where
  | wProcessing
  | wProgress (p : ℚ)
  | wCompleted (result : String)
  | wFailed (error : String)
  | qCancel
deriving DecidableEq, Repr

/-- Apply one of the repository's task mutations, via the queue.py code. -/
def applyOp (task_id : String) (now : Nat) (s : Store) : QOp → Store
  | .wProcessing => (update_task task_id (some .processing) none none none now s).2
  | .wProgress p => (update_task task_id none (some p) none none now s).2
  | .wCompleted r => (update_task task_id (some .completed) (some 100) (some r) none now s).2
  | .wFailed e => (update_task task_id (some .failed) none none (some e) now s).2
  | .qCancel => (cancel_task task_id now s).2

def runOps (task_id : String) (now : Nat) (s : Store) (ops : List QOp) : Store :=
  ops.foldl (fun st op => applyOp task_id now st op) s

/-- The effect of one mutation on the `(status, progress)` pair of an
existing task record, read off from update_task / cancel_task. -/
def opEffect : QOp → TaskStatus × ℚ → TaskStatus × ℚ
  | .wProcessing, sp => (.processing, sp.2)
  | .wProgress p, sp => (sp.1, p)
  | .wCompleted _, _ => (.completed, 100)
  | .wFailed _, sp => (.failed, sp.2)
  | .qCancel, sp => (if sp.1.isTerminal then sp.1 else .cancelled, sp.2)

def statusProgressFold (ops : List QOp) (sp : TaskStatus × ℚ) : TaskStatus × ℚ :=
  ops.foldl (fun sp op => opEffect op sp) sp

theorem update_task_found (task_id : String) (status : Option TaskStatus)
    (progress : Option ℚ) (result : Option String) (error : Option String)
    (now : Nat) (s : Store) (t : Task) (hget : get_task task_id s = some t) :
    ∃ t', (update_task task_id status progress result error now s).1 = some t' ∧
      get_task task_id (update_task task_id status progress result error now s).2 = some t' ∧
      t'.status = (match status with | some st => st | none => t.status) ∧
      t'.progress = (match progress with | some p => p | none => t.progress) := by
  unfold update_task get_task
  have hget1 : lookupAssoc task_id s.tasks = some t := hget
  rw [hget1]
  exact ⟨_, rfl, lookupAssoc_setAssoc_self _ _ _, rfl, rfl⟩

theorem cancel_task_found (task_id : String) (now : Nat) (s : Store) (t : Task)
    (hget : get_task task_id s = some t) :
    ∃ t', get_task task_id (cancel_task task_id now s).2 = some t' ∧
      t'.status = (if t.status.isTerminal then t.status else .cancelled) ∧
      t'.progress = t.progress := by
  unfold cancel_task
  rw [hget]
  by_cases hterm : t.status.isTerminal
  · simp only [hterm, if_true]
    exact ⟨t, hget, rfl, rfl⟩
  · simp only [hterm, Bool.false_eq_true, if_false]
    have hget1 : get_task task_id
        ({ s with pending := s.pending.filter (fun y => y ≠ task_id) } : Store) = some t := hget
    obtain ⟨t', _, hg, hst, hp⟩ :=
      update_task_found task_id (some .cancelled) none none none now _ t hget1
    exact ⟨t', hg, by rw [hst], hp⟩

theorem applyOp_effect (task_id : String) (now : Nat) (s : Store) (t : Task) (op : QOp)
    (hget : get_task task_id s = some t) :
    ∃ t', get_task task_id (applyOp task_id now s op) = some t' ∧
      t'.status = (opEffect op (t.status, t.progress)).1 ∧
      t'.progress = (opEffect op (t.status, t.progress)).2 := by
  cases op with
  | wProcessing =>
    obtain ⟨t', _, hg, hst, hp⟩ :=
      update_task_found task_id (some .processing) none none none now s t hget
    exact ⟨t', hg, hst, hp⟩
  | wProgress p =>
    obtain ⟨t', _, hg, hst, hp⟩ :=
      update_task_found task_id none (some p) none none now s t hget
    exact ⟨t', hg, hst, hp⟩
  | wCompleted r =>
    obtain ⟨t', _, hg, hst, hp⟩ :=
      update_task_found task_id (some .completed) (some 100) (some r) none now s t hget
    exact ⟨t', hg, hst, hp⟩
  | wFailed e =>
    obtain ⟨t', _, hg, hst, hp⟩ :=
      update_task_found task_id (some .failed) none none (some e) now s t hget
    exact ⟨t', hg, hst, hp⟩
  | qCancel =>
    obtain ⟨t', hg, hst, hp⟩ := cancel_task_found task_id now s t hget
    exact ⟨t', hg, hst, hp⟩

theorem runOps_effect (task_id : String) (now : Nat) :
    ∀ (ops : List QOp) (s : Store) (t : Task), get_task task_id s = some t →
      ∃ t', get_task task_id (runOps task_id now s ops) = some t' ∧
        t'.status = (statusProgressFold ops (t.status, t.progress)).1 ∧
        t'.progress = (statusProgressFold ops (t.status, t.progress)).2 := by
  intro ops
  induction ops with
  | nil =>
    intro s t hget
    exact ⟨t, hget, rfl, rfl⟩
  | cons op rest ih =>
    intro s t hget
    obtain ⟨t1, hg1, hst1, hp1⟩ := applyOp_effect task_id now s t op hget
    obtain ⟨t', hg, hst, hp⟩ := ih (applyOp task_id now s op) t1 hg1
    have hpair : (t1.status, t1.progress) = opEffect op (t.status, t.progress) := by
      rw [hst1, hp1]
    refine ⟨t', hg, ?_, ?_⟩
    · rw [hst, hpair]
      rfl
    · rw [hp, hpair]
      rfl

/-- The status progression C3 asserts: from `pending` anything; from
`processing` anything but a return to `pending`; a terminal status never
changes. -/
def statusOK : TaskStatus → TaskStatus → Bool
  | .pending, _ => true
  | .processing, s2 => !(s2 == .pending)
  | .completed, s2 => s2 == .completed
  | .failed, s2 => s2 == .failed
  | .cancelled, s2 => s2 == .cancelled

theorem statusOK_refl : ∀ a : TaskStatus, statusOK a a = true := by decide

theorem statusOK_trans : ∀ a b c : TaskStatus,
    statusOK a b = true → statusOK b c = true → statusOK a c = true := by decide

theorem statusOK_of_terminal : ∀ a b : TaskStatus,
    a.isTerminal = false → b.isTerminal = true → statusOK a b = true := by decide

theorem statusOK_processing : ∀ a : TaskStatus,
    a.isTerminal = false → statusOK a .processing = true := by decide

/-- Ops that overwrite the status field outright (the worker's three
status-carrying `update_task` calls). -/
def setsStatus : QOp → Bool
  | .wProcessing => true
  | .wCompleted _ => true
  | .wFailed _ => true
  | _ => false

/-- Ops that can move a task into a terminal status. -/
def stopsStatus : QOp → Bool
  | .wCompleted _ => true
  | .wFailed _ => true
  | .qCancel => true
  | _ => false

/-- The C3 side condition forced by the counterexample: after the first op
that can make the task terminal (worker completion/failure, or a cancel),
no status-carrying worker update occurs — i.e. no worker update races with
a cancellation. -/
def noStatusAfterStop : List QOp → Bool
  | [] => true
  | op :: rest =>
    if stopsStatus op then rest.all (fun o => !setsStatus o)
    else noStatusAfterStop rest

/-- Generalisation of `noStatusAfterStop` to a trace starting at a given
status: from a terminal status, only status-preserving ops may follow. -/
def noStatusAfterStopFrom (st : TaskStatus) (ops : List QOp) : Bool :=
  if st.isTerminal then ops.all (fun o => !setsStatus o)
  else noStatusAfterStop ops

theorem opEffect_terminal_of_stop (op : QOp) (sp : TaskStatus × ℚ)
    (hterm : sp.1.isTerminal = false) (hstop : stopsStatus op = true) :
    (opEffect op sp).1.isTerminal = true := by
  cases op with
  | wProcessing => simp [stopsStatus] at hstop
  | wProgress p => simp [stopsStatus] at hstop
  | wCompleted r => rfl
  | wFailed e => rfl
  | qCancel =>
    simp only [opEffect, hterm, Bool.false_eq_true, if_false]
    rfl

theorem opEffect_keep_of_not_sets (op : QOp) (sp : TaskStatus × ℚ)
    (hterm : sp.1.isTerminal = true) (hsets : setsStatus op = false) :
    (opEffect op sp).1 = sp.1 := by
  cases op with
  | wProcessing => simp [setsStatus] at hsets
  | wProgress p => rfl
  | wCompleted r => simp [setsStatus] at hsets
  | wFailed e => simp [setsStatus] at hsets
  | qCancel => simp [opEffect, hterm]

theorem bool_not_eq (b : Bool) (h : (!b) = true) : b = false := by
  cases b
  · rfl
  · exact absurd h (by decide)

theorem nsasFrom_step (op : QOp) (ops : List QOp) (sp : TaskStatus × ℚ)
    (h : noStatusAfterStopFrom sp.1 (op :: ops) = true) :
    noStatusAfterStopFrom (opEffect op sp).1 ops = true := by
  unfold noStatusAfterStopFrom at h ⊢
  by_cases hterm : sp.1.isTerminal = true
  · rw [if_pos hterm, List.all_cons, Bool.and_eq_true] at h
    obtain ⟨hop, hrest⟩ := h
    have hkeep : (opEffect op sp).1 = sp.1 :=
      opEffect_keep_of_not_sets op sp hterm (bool_not_eq _ hop)
    rw [hkeep, if_pos hterm]
    exact hrest
  · rw [if_neg hterm] at h
    have hterm2 : sp.1.isTerminal = false := by
      cases hx : sp.1.isTerminal
      · rfl
      · exact absurd hx hterm
    unfold noStatusAfterStop at h
    by_cases hstop : stopsStatus op = true
    · rw [if_pos hstop] at h
      have hT := opEffect_terminal_of_stop op sp hterm2 hstop
      rw [if_pos hT]
      exact h
    · rw [if_neg hstop] at h
      have hstop2 : stopsStatus op = false := by
        cases hx : stopsStatus op
        · rfl
        · exact absurd hx hstop
      have hNT : (opEffect op sp).1.isTerminal = false := by
        cases op with
        | wProcessing => rfl
        | wProgress p => exact hterm2
        | wCompleted r => simp [stopsStatus] at hstop2
        | wFailed e => simp [stopsStatus] at hstop2
        | qCancel => simp [stopsStatus] at hstop2
      rw [if_neg (by rw [hNT]; exact Bool.false_ne_true)]
      exact h

theorem opEffect_statusOK (op : QOp) (sp : TaskStatus × ℚ)
    (hterm : sp.1.isTerminal = false) :
    statusOK sp.1 (opEffect op sp).1 = true := by
  cases op with
  | wProcessing => exact statusOK_processing sp.1 hterm
  | wProgress p => exact statusOK_refl sp.1
  | wCompleted r => exact statusOK_of_terminal sp.1 .completed hterm rfl
  | wFailed e => exact statusOK_of_terminal sp.1 .failed hterm rfl
  | qCancel =>
    simp only [opEffect, hterm, Bool.false_eq_true, if_false]
    exact statusOK_of_terminal sp.1 .cancelled hterm rfl

theorem statusFoldFrom_ok :
    ∀ (ops : List QOp) (sp : TaskStatus × ℚ),
      noStatusAfterStopFrom sp.1 ops = true →
      statusOK sp.1 (statusProgressFold ops sp).1 = true := by
  intro ops
  induction ops with
  | nil => intro sp _; exact statusOK_refl sp.1
  | cons op rest ih =>
    intro sp h
    have hstep := nsasFrom_step op rest sp h
    have hrest := ih (opEffect op sp) hstep
    have hfold : statusProgressFold (op :: rest) sp
        = statusProgressFold rest (opEffect op sp) := rfl
    rw [hfold]
    by_cases hterm : sp.1.isTerminal = true
    · have hkeep : (opEffect op sp).1 = sp.1 := by
        unfold noStatusAfterStopFrom at h
        rw [if_pos hterm, List.all_cons, Bool.and_eq_true] at h
        exact opEffect_keep_of_not_sets op sp hterm (bool_not_eq _ h.1)
      rw [← hkeep]
      exact hrest
    · have hterm' : sp.1.isTerminal = false := by
        cases hx : sp.1.isTerminal
        · rfl
        · exact absurd hx hterm
      exact statusOK_trans _ _ _ (opEffect_statusOK op sp hterm') hrest

theorem nsasFrom_append :
    ∀ (l1 l2 : List QOp) (sp : TaskStatus × ℚ),
      noStatusAfterStopFrom sp.1 (l1 ++ l2) = true →
      noStatusAfterStopFrom (statusProgressFold l1 sp).1 l2 = true := by
  intro l1
  induction l1 with
  | nil => intro l2 sp h; exact h
  | cons op rest ih =>
    intro l2 sp h
    have hstep := nsasFrom_step op (rest ++ l2) sp h
    exact ih l2 (opEffect op sp) hstep

theorem noStatusAfterStop_take :
    ∀ (ops : List QOp) (n : Nat), noStatusAfterStop ops = true →
      noStatusAfterStop (ops.take n) = true := by
  intro ops
  induction ops with
  | nil => intro n _; simp [noStatusAfterStop]
  | cons op rest ih =>
    intro n h
    cases n with
    | zero => rfl
    | succ n =>
      rw [List.take_succ_cons]
      unfold noStatusAfterStop at h ⊢
      by_cases hstop : stopsStatus op = true
      · rw [if_pos hstop] at h ⊢
        rw [List.all_eq_true] at h ⊢
        exact fun o ho => h o (List.mem_of_mem_take ho)
      · rw [if_neg hstop] at h ⊢
        exact ih n h

/-- C3 refuted on the code: a task cancelled while `PROCESSING` is later
recorded `COMPLETED` when its in-flight handler finishes, because
`update_task` applies any supplied status unconditionally. -/
theorem c3_counterexample :
    (get_task "t1" (runOps "t1" 1 (create_task "t1" .image "" none 0 emptyStore).2
        [.wProcessing, .qCancel])).map Task.status = some .cancelled ∧
    (get_task "t1" (runOps "t1" 1 (create_task "t1" .image "" none 0 emptyStore).2
        [.wProcessing, .qCancel, .wCompleted "r"])).map Task.status
      = some .completed := by
  decide

/-- C3 (amended): along every sequence of the repository's task mutations
in which no status-carrying worker update follows an op that can have made
the task terminal (completion, failure or cancel), the stored status is
monotone: it never returns from `processing` to `pending` and never leaves
a terminal status; without that proviso the counterexample applies. -/
theorem c3_status_monotone_amended (task_id : String) (now : Nat) (s : Store) (t : Task)
    (hget : get_task task_id s = some t) (hpend : t.status = .pending)
    (ops : List QOp) (hops : noStatusAfterStop ops = true)
    (i j : Nat) (hij : i ≤ j) :
    ∃ ti tj, get_task task_id (runOps task_id now s (ops.take i)) = some ti ∧
      get_task task_id (runOps task_id now s (ops.take j)) = some tj ∧
      statusOK ti.status tj.status = true := by
  obtain ⟨ti, hgi, hsti, _⟩ := runOps_effect task_id now (ops.take i) s t hget
  obtain ⟨tj, hgj, hstj, _⟩ := runOps_effect task_id now (ops.take j) s t hget
  refine ⟨ti, tj, hgi, hgj, ?_⟩
  rw [hsti, hstj, hpend]
  have hsplit : ops.take i ++ (ops.take j).drop i = ops.take j := by
    have h0 := List.take_append_drop i (ops.take j)
    rw [List.take_take, min_eq_left hij] at h0
    exact h0
  have hfoldsplit : statusProgressFold (ops.take j) (.pending, t.progress)
      = statusProgressFold ((ops.take j).drop i)
          (statusProgressFold (ops.take i) (.pending, t.progress)) := by
    have happ := List.foldl_append (fun sp op => opEffect op sp)
      ((TaskStatus.pending, t.progress) : TaskStatus × ℚ) (ops.take i) ((ops.take j).drop i)
    rw [hsplit] at happ
    exact happ
  rw [hfoldsplit]
  have hgen : noStatusAfterStopFrom (TaskStatus.pending)
      (ops.take i ++ (ops.take j).drop i) = true := by
    rw [hsplit]
    unfold noStatusAfterStopFrom
    rw [if_neg (by simp [TaskStatus.isTerminal])]
    exact noStatusAfterStop_take ops j hops
  have hmid := nsasFrom_append (ops.take i) ((ops.take j).drop i) (.pending, t.progress) hgen
  exact statusFoldFrom_ok ((ops.take j).drop i)
    (statusProgressFold (ops.take i) (.pending, t.progress)) hmid

/-- Witness for C3 (amended) at a concrete compliant trace. -/
theorem c3_status_monotone_amended_witness :
    ∃ ti tj, get_task "t1" (runOps "t1" 1 (create_task "t1" .image "" none 0 emptyStore).2
        ([.wProcessing, .wProgress 50, .wCompleted "r"].take 1)) = some ti ∧
      get_task "t1" (runOps "t1" 1 (create_task "t1" .image "" none 0 emptyStore).2
        ([.wProcessing, .wProgress 50, .wCompleted "r"].take 3)) = some tj ∧
      statusOK ti.status tj.status = true :=
  c3_status_monotone_amended "t1" 1 (create_task "t1" .image "" none 0 emptyStore).2
    (create_task "t1" .image "" none 0 emptyStore).1 (by decide) (by decide)
    [.wProcessing, .wProgress 50, .wCompleted "r"] (by decide) 1 3 (by decide)

/-! ### C9: progress = 100 versus status -/

/-- The per-model progress written by `process_llm_compare_task`
(worker.py line 304): `((idx + 1) / total_models) * 100`. -/
def llmCompareProgress (idx total : Nat) : ℚ := (((idx : ℚ) + 1) / (total : ℚ)) * 100

/-- The handler discipline in worker.py: progress-only updates are issued
only by handlers, which run after `process_task` has set `PROCESSING`;
so no `wProgress` precedes the first `wProcessing`. -/
def progressAfterProcessing : List QOp → Bool
  | [] => true
  | .wProcessing :: _ => true
  | .wProgress _ :: _ => false
  | _ :: rest => progressAfterProcessing rest

theorem opEffect_ne_pending (op : QOp) (sp : TaskStatus × ℚ)
    (h : sp.1 ≠ .pending) : (opEffect op sp).1 ≠ .pending := by
  cases op with
  | wProcessing => exact fun hc => by cases hc
  | wProgress p => exact h
  | wCompleted r => exact fun hc => by cases hc
  | wFailed e => exact fun hc => by cases hc
  | qCancel =>
    simp only [opEffect]
    by_cases hterm : sp.1.isTerminal = true
    · rw [if_pos hterm]; exact h
    · rw [if_neg hterm]; exact fun hc => by cases hc

theorem statusProgressFold_ne_pending :
    ∀ (ops : List QOp) (sp : TaskStatus × ℚ), sp.1 ≠ .pending →
      (statusProgressFold ops sp).1 ≠ .pending := by
  intro ops
  induction ops with
  | nil => intro sp h; exact h
  | cons op rest ih =>
    intro sp h
    exact ih (opEffect op sp) (opEffect_ne_pending op sp h)

theorem statusProgressFold_pending_progress :
    ∀ (ops : List QOp), progressAfterProcessing ops = true →
      ∀ (sp : TaskStatus × ℚ), (sp.1 = .pending → sp.2 = 0) →
      ((statusProgressFold ops sp).1 = .pending → (statusProgressFold ops sp).2 = 0) := by
  intro ops
  induction ops with
  | nil => intro _ sp h; exact h
  | cons op rest ih =>
    intro hdisc sp h
    cases op with
    | wProcessing =>
      intro hc
      exact absurd hc (statusProgressFold_ne_pending rest _ (fun hx => by cases hx))
    | wProgress p =>
      exact absurd hdisc (by simp [progressAfterProcessing])
    | wCompleted r =>
      intro hc
      exact absurd hc (statusProgressFold_ne_pending rest _ (fun hx => by cases hx))
    | wFailed e =>
      intro hc
      exact absurd hc (statusProgressFold_ne_pending rest _ (fun hx => by cases hx))
    | qCancel =>
      intro hc
      refine absurd hc (statusProgressFold_ne_pending rest _ ?_)
      show (opEffect .qCancel sp).1 ≠ .pending
      simp only [opEffect]
      by_cases hterm : sp.1.isTerminal = true
      · rw [if_pos hterm]
        intro hx
        rw [hx] at hterm
        cases hterm
      · rw [if_neg hterm]
        exact fun hx => by cases hx

theorem progressAfterProcessing_take :
    ∀ (ops : List QOp) (n : Nat), progressAfterProcessing ops = true →
      progressAfterProcessing (ops.take n) = true := by
  intro ops
  induction ops with
  | nil => intro n _; simp [progressAfterProcessing]
  | cons op rest ih =>
    intro n h
    cases n with
    | zero => rfl
    | succ n =>
      rw [List.take_succ_cons]
      cases op with
      | wProcessing => rfl
      | wProgress p => exact absurd h (by simp [progressAfterProcessing])
      | wCompleted r => exact ih n h
      | wFailed e => exact ih n h
      | qCancel => exact ih n h

/-- C9 refuted on the code: after the last model of a two-model compare,
`process_llm_compare_task` writes `progress = ((1 + 1) / 2) * 100 = 100`
through a progress-only `update_task` while the task is still
`PROCESSING`; the completion update comes only later in `process_task`. -/
theorem c9_counterexample :
    llmCompareProgress 1 2 = 100 ∧
    (get_task "t1" (runOps "t1" 1 (create_task "t1" .llm_compare "" none 0 emptyStore).2
        [.wProcessing, .wProgress (llmCompareProgress 1 2)])).map
      (fun t => (t.status, t.progress)) = some (.processing, 100) := by
  have h100 : llmCompareProgress 1 2 = 100 := by norm_num [llmCompareProgress]
  refine ⟨h100, ?_⟩
  rw [h100]
  decide

/-- C9 (amended): under the handler discipline (no progress-only update
before the `PROCESSING` transition), a task record with `progress = 100`
can never have status `PENDING`; but it can be `PROCESSING` (and, if a
cancel lands at that instant, `CANCELLED`) as the counterexample shows, so
`progress = 100` does not imply a terminal status. -/
theorem c9_progress_100_never_pending (task_id : String) (now : Nat) (s : Store) (t : Task)
    (hget : get_task task_id s = some t) (_hpend : t.status = .pending)
    (hprog : t.progress = 0)
    (ops : List QOp) (hdisc : progressAfterProcessing ops = true) (k : Nat) :
    ∃ tk, get_task task_id (runOps task_id now s (ops.take k)) = some tk ∧
      (tk.progress = 100 → tk.status ≠ .pending) := by
  obtain ⟨tk, hg, hst, hp⟩ := runOps_effect task_id now (ops.take k) s t hget
  refine ⟨tk, hg, ?_⟩
  intro hp100 hpend'
  have hinv := statusProgressFold_pending_progress (ops.take k)
    (progressAfterProcessing_take ops k hdisc) (t.status, t.progress)
    (fun _ => hprog)
  rw [← hst, ← hp] at hinv
  have h0 : tk.progress = 0 := hinv hpend'
  rw [hp100] at h0
  norm_num at h0

/-- Witness for C9 (amended) at a concrete compliant trace. -/
theorem c9_progress_100_never_pending_witness :
    ∃ tk, get_task "t1" (runOps "t1" 1 (create_task "t1" .llm_compare "" none 0 emptyStore).2
        ([.wProcessing, .wProgress 50, .wCompleted "r"].take 2)) = some tk ∧
      (tk.progress = 100 → tk.status ≠ .pending) :=
  c9_progress_100_never_pending "t1" 1 (create_task "t1" .llm_compare "" none 0 emptyStore).2
    (create_task "t1" .llm_compare "" none 0 emptyStore).1 (by decide) (by decide) (by decide)
    [.wProcessing, .wProgress 50, .wCompleted "r"] (by decide) 2

/-! ### The model orchestrator (services/orchestrator.py)

State: `_models` (insertion-ordered dict `model_id → LoadedModel`),
`_status` (dict `model_id → status info`), and the single `asyncio.Lock`.
The lock is not reentrant: an `async with self._lock` executed while the
same call chain already holds the lock never resumes — modelled as the
`deadlock` outcome. The GPU is modelled by a total capacity and a
baseline of externally-used memory; each resident occupies its
`memory_mb`, and re-sampling free memory after an unload sees that
memory returned. Adapter loaders/unloaders are the external collaborators:
the unloader frees the model's memory; the loader outcome is a parameter
(`Except`), and adapter invocations are recorded in a trace.
-/

structure LoadedModel where
  model_id : String
  model_type : ModelType
  model_instance : Nat
  memory_mb : ℚ
  loaded_at : Nat
  last_used : Nat
  metadata : List (String × String)
deriving DecidableEq, Repr

/-- One entry of the `_status` dict:
`{type, status, error, loaded_at}`. -/
structure StatusInfo where
  type : ModelType
  status : ModelStatus
  error : Option String
  loaded_at : Option Nat
deriving DecidableEq, Repr

structure OrchState where
  models : List LoadedModel
  status : List (String × StatusInfo)
  lockHeld : Bool
deriving DecidableEq, Repr

/-- `self._models.get(model_id)`. -/
def getModel (model_id : String) : List LoadedModel → Option LoadedModel
  | [] => none
  | m :: rest => if m.model_id = model_id then some m else getModel model_id rest

/-- `model_id in self._models`. -/
def isResident (model_id : String) (ms : List LoadedModel) : Bool :=
  (getModel model_id ms).isSome

/-- `self._models[model_id] = lm`: overwrite in place, else append. -/
def setModel (lm : LoadedModel) : List LoadedModel → List LoadedModel
  | [] => [lm]
  | m :: rest => if m.model_id = lm.model_id then lm :: rest else m :: setModel lm rest

/-- `del self._models[model_id]`. -/
def delModel (model_id : String) (ms : List LoadedModel) : List LoadedModel :=
  ms.filter (fun m => m.model_id ≠ model_id)

/-- `self._models[model_id].touch()`. -/
def touchModel (model_id : String) (now : Nat) (ms : List LoadedModel) : List LoadedModel :=
  ms.map (fun m => if m.model_id = model_id then { m with last_used := now } else m)

/-- The sampled free GPU memory: capacity minus non-model usage minus the
memory of the resident models. -/
def GpuFree (total other : ℚ) (ms : List LoadedModel) : ℚ :=
  total - other - (ms.map (fun m => m.memory_mb)).sum

/-- Trace of adapter invocations. -/
inductive AdapterCall where
  | unload_model (model_id : String) (mt : ModelType)
  | load_model (model_id : String) (mt : ModelType)
deriving DecidableEq, Repr

/-- Outcome of running a coroutine that may attempt to re-acquire the
orchestrator's non-reentrant lock. -/
inductive ExecResult (α : Type) where
  | ok (val : α)
  | deadlock
deriving DecidableEq, Repr

/-- `_unload_internal` from orchestrator.py: warn-and-return-0 on a
non-resident id; otherwise record `UNLOADING`, call the adapter unloader,
delete the registry entry and record `NOT_LOADED`. -/
def _unload_internal (model_id : String) (s : OrchState) :
    ℚ × OrchState × List AdapterCall :=
  match getModel model_id s.models with
  | none => (0, s, [])
  | some m =>
    let s1 : OrchState :=
      { s with status := setAssoc model_id ⟨m.model_type, .unloading, none, none⟩ s.status }
    let freed := m.memory_mb
    let s2 : OrchState :=
      { s1 with
        models := delModel model_id s1.models,
        status := setAssoc model_id ⟨m.model_type, .not_loaded, none, none⟩ s1.status }
    (freed, s2, [.unload_model model_id m.model_type])

/-- `unload` from orchestrator.py: `async with self._lock` around
`_unload_internal`; re-acquisition of a held lock never resumes. -/
def unload (model_id : String) (s : OrchState) :
    ExecResult (ℚ × OrchState × List AdapterCall) :=
  if s.lockHeld then .deadlock
  else
    let r := _unload_internal model_id { s with lockHeld := true }
    .ok (r.1, { r.2.1 with lockHeld := false }, r.2.2)

/-- The eviction walk in `ensure_memory_available`: for each candidate in
order, stop once free memory suffices, otherwise `await self.unload(...)`
(the public, lock-taking method) and re-sample. Returns the unloaded
victims in order. -/
def evictLoop (total other required_mb : ℚ) :
    List LoadedModel → OrchState → ExecResult (OrchState × List String × List AdapterCall)
  | [], s => .ok (s, [], [])
  | m :: rest, s =>
    if GpuFree total other s.models ≥ required_mb then .ok (s, [], [])
    else
      match unload m.model_id s with
      | .deadlock => .deadlock
      | .ok (_, s1, tr1) =>
        match evictLoop total other required_mb rest s1 with
        | .deadlock => .deadlock
        | .ok (s2, victims, tr2) => .ok (s2, m.model_id :: victims, tr1 ++ tr2)

/-- The candidate list of `ensure_memory_available`: all residents whose
id differs from `exclude_model_id`, sorted ascending by `last_used`. -/
def sortCandidates (exclude_model_id : Option String) (ms : List LoadedModel) :
    List LoadedModel :=
  List.insertionSort (fun a b => a.last_used ≤ b.last_used)
    (ms.filter (fun m => !(some m.model_id == exclude_model_id)))

/-- `ensure_memory_available` from orchestrator.py. -/
def ensure_memory_available (total other required_mb : ℚ)
    (exclude_model_id : Option String) (s : OrchState) :
    ExecResult (OrchState × List String × List AdapterCall) :=
  if GpuFree total other s.models ≥ required_mb then .ok (s, [], [])
  else evictLoop total other required_mb (sortCandidates exclude_model_id s.models) s

/-- Outcome of the external adapter loader for `_load_model`:
`(instance, actual_memory, metadata)` on success, the raised message on
failure. -/
structure LoaderResult where
  model_instance : Nat
  memory_mb : ℚ
  metadata : List (String × String)
deriving DecidableEq, Repr

/-- `load` from orchestrator.py. `memory_estimate` stands for
`_estimate_memory(model_id, model_type)` and `loader` for the adapter call
in `_load_model`; both are external to the orchestrator's logic. The
function acquires the lock, handles the already-resident fast path and the
`force` unload, records `LOADING`, runs the eviction, invokes the loader
and records `LOADED` or `ERROR`; an adapter exception is re-raised
(`Except.error`) after the `ERROR` status write. -/
def load (total other memory_estimate : ℚ) (loader : Except String LoaderResult)
    (model_id : String) (model_type : ModelType) (force : Bool) (now : Nat)
    (s : OrchState) :
    ExecResult (Except String LoadedModel × OrchState × List AdapterCall) :=
  if s.lockHeld then .deadlock
  else
    let s0 : OrchState := { s with lockHeld := true }
    match getModel model_id s0.models, force with
    | some m, false =>
        .ok (.ok { m with last_used := now },
          { s0 with models := touchModel model_id now s0.models, lockHeld := false }, [])
    | found, _ =>
      let u : OrchState × List AdapterCall :=
        match found with
        | some _ => ((_unload_internal model_id s0).2.1, (_unload_internal model_id s0).2.2)
        | none => (s0, [])
      let s2 : OrchState :=
        { u.1 with status := setAssoc model_id ⟨model_type, .loading, none, none⟩ u.1.status }
      match ensure_memory_available total other memory_estimate (some model_id) s2 with
      | .deadlock => .deadlock
      | .ok (s3, _victims, tr2) =>
        match loader with
        | .error msg =>
            let s4 : OrchState :=
              { s3 with status :=
                  setAssoc model_id ⟨model_type, .error, some msg, none⟩ s3.status }
            .ok (.error msg, { s4 with lockHeld := false },
              u.2 ++ tr2 ++ [.load_model model_id model_type])
        | .ok lr =>
            let lm : LoadedModel :=
              { model_id := model_id, model_type := model_type,
                model_instance := lr.model_instance, memory_mb := lr.memory_mb,
                loaded_at := now, last_used := now, metadata := lr.metadata }
            let s4 : OrchState :=
              { s3 with
                models := setModel lm s3.models,
                status := setAssoc model_id ⟨model_type, .loaded, none, some now⟩ s3.status }
            .ok (.ok lm, { s4 with lockHeld := false },
              u.2 ++ tr2 ++ [.load_model model_id model_type])

theorem getModel_delModel_self (model_id : String) :
    ∀ ms : List LoadedModel, getModel model_id (delModel model_id ms) = none := by
  intro ms
  induction ms with
  | nil => rfl
  | cons m rest ih =>
    unfold delModel at ih ⊢
    rw [List.filter_cons]
    by_cases h : m.model_id = model_id
    · rw [if_neg (by simp [h])]
      exact ih
    · rw [if_pos (by simp [h])]
      unfold getModel
      rw [if_neg h]
      exact ih

theorem delModel_of_not_resident (model_id : String) :
    ∀ ms : List LoadedModel, isResident model_id ms = false →
      delModel model_id ms = ms := by
  intro ms
  induction ms with
  | nil => intro _; rfl
  | cons m rest ih =>
    intro h
    unfold isResident getModel at h
    by_cases hm : m.model_id = model_id
    · rw [if_pos hm] at h
      simp at h
    · rw [if_neg hm] at h
      unfold delModel
      rw [List.filter_cons, if_pos (by simp [hm])]
      have := ih h
      unfold delModel at this
      rw [this]

/-! C6: unload of a non-resident id -/

/-- C6: `unload` on a non-resident id returns 0 and leaves the
orchestrator state (resident registry and status store) bit-for-bit
unchanged, with no adapter unloader invocation. -/
theorem c6_unload_not_resident (model_id : String) (s : OrchState)
    (hres : isResident model_id s.models = false) (hlock : s.lockHeld = false) :
    unload model_id s = .ok (0, s, []) := by
  have hg : getModel model_id s.models = none := by
    unfold isResident at hres
    cases hx : getModel model_id s.models
    · rfl
    · rw [hx] at hres; simp at hres
  unfold unload
  rw [if_neg (by rw [hlock]; exact Bool.false_ne_true)]
  unfold _unload_internal
  rw [show getModel model_id ({ s with lockHeld := true } : OrchState).models = none from hg]
  obtain ⟨ms, st, lh⟩ := s
  simp only at hlock
  subst hlock
  rfl

/-- Witness for C6 at a concrete state. -/
theorem c6_unload_not_resident_witness :
    unload "m" (⟨[], [], false⟩ : OrchState) = .ok (0, ⟨[], [], false⟩, []) :=
  c6_unload_not_resident "m" ⟨[], [], false⟩ rfl rfl

/-! C1: eviction inside load deadlocks on the non-reentrant lock -/

/-- The eviction-under-pressure input: one resident model and free memory
below the estimate of the incoming model. -/
def c1State : OrchState :=
  { models := [{ model_id := "modelA", model_type := .llm, model_instance := 1,
                 memory_mb := 6000, loaded_at := 1, last_used := 1, metadata := [] }],
    status := [], lockHeld := false }

/-- C1 (the code deviates): whenever `load` needs to evict — free memory
below the estimate and at least one other resident — the eviction walk
calls the public `unload`, which re-acquires the orchestrator lock that
`load` already holds; the non-reentrant lock acquisition never resumes, so
`load` deadlocks instead of completing. -/
theorem c1_load_eviction_deadlocks (total other memory_estimate : ℚ)
    (loader : Except String LoaderResult) (model_id : String) (model_type : ModelType)
    (now : Nat) (s : OrchState)
    (hlock : s.lockHeld = false)
    (hnotres : isResident model_id s.models = false)
    (hneed : ¬ GpuFree total other s.models ≥ memory_estimate)
    (hcand : sortCandidates (some model_id) s.models ≠ []) :
    load total other memory_estimate loader model_id model_type false now s
      = .deadlock := by
  have hg : getModel model_id s.models = none := by
    unfold isResident at hnotres
    cases hx : getModel model_id s.models
    · rfl
    · rw [hx] at hnotres; simp at hnotres
  have hens : ∀ st : List (String × StatusInfo),
      ensure_memory_available total other memory_estimate (some model_id)
        ⟨s.models, st, true⟩ = .deadlock := by
    intro st
    unfold ensure_memory_available
    dsimp only
    rw [if_neg hneed]
    rcases hc : sortCandidates (some model_id) s.models with _ | ⟨m0, rest⟩
    · exact absurd hc hcand
    · unfold evictLoop
      dsimp only
      rw [if_neg hneed]
      rfl
  unfold load
  rw [if_neg (by rw [hlock]; exact Bool.false_ne_true)]
  simp only [hg]
  rw [hens]


/-- Witness-style concrete run of C1: the spec scenario (10000 MB total,
resident modelA of 6000 MB, estimate 5000 MB for modelC) deadlocks. -/
theorem c1_load_eviction_deadlocks_witness :
    load 10000 0 5000 (.ok ⟨2, 4000, []⟩) "modelC" .image false 5 c1State
      = .deadlock :=
  c1_load_eviction_deadlocks 10000 0 5000 (.ok ⟨2, 4000, []⟩) "modelC" .image 5 c1State
    rfl (by decide)
    (by norm_num [GpuFree, c1State])
    (by decide)

/-! C7: adapter loader failure during load -/

theorem ensure_no_evict (total other req : ℚ) (exclude : Option String) (s : OrchState)
    (h : GpuFree total other s.models ≥ req ∨ s.models = []) :
    ensure_memory_available total other req exclude s = .ok (s, [], []) := by
  unfold ensure_memory_available
  rcases h with h | h
  · rw [if_pos h]
  · by_cases hfree : GpuFree total other s.models ≥ req
    · rw [if_pos hfree]
    · rw [if_neg hfree, h]
      rfl

/-- C7: when a `load` call reaches the adapter loader (not the
already-resident fast path; no eviction needed — an eviction would
deadlock, see C1) and the loader raises, the raised message propagates to
the caller as the load's outcome, the id is absent from the resident
registry, and the status store maps the id to `ERROR` with that message. -/
theorem c7_load_error_records_status (total other memory_estimate : ℚ) (msg : String)
    (model_id : String) (model_type : ModelType) (force : Bool) (now : Nat) (s : OrchState)
    (hlock : s.lockHeld = false)
    (hearly : isResident model_id s.models = false ∨ force = true)
    (hmem : GpuFree total other (delModel model_id s.models) ≥ memory_estimate ∨
            delModel model_id s.models = []) :
    ∃ s' tr, load total other memory_estimate (.error msg) model_id model_type force now s
        = .ok (.error msg, s', tr) ∧
      isResident model_id s'.models = false ∧
      lookupAssoc model_id s'.status = some ⟨model_type, .error, some msg, none⟩ ∧
      s'.lockHeld = false := by
  unfold load
  rw [if_neg (by rw [hlock]; exact Bool.false_ne_true)]
  dsimp only
  rcases hfg : getModel model_id s.models with _ | m
  · have hres : isResident model_id s.models = false := by
      unfold isResident; rw [hfg]; rfl
    have hdel : delModel model_id s.models = s.models :=
      delModel_of_not_resident model_id s.models hres
    rw [hdel] at hmem
    dsimp only
    rw [ensure_no_evict total other memory_estimate (some model_id)
      ⟨s.models, setAssoc model_id ⟨model_type, .loading, none, none⟩ s.status, true⟩ hmem]
    refine ⟨⟨s.models,
        setAssoc model_id ⟨model_type, .error, some msg, none⟩
          (setAssoc model_id ⟨model_type, .loading, none, none⟩ s.status), false⟩,
      [.load_model model_id model_type], rfl, hres,
      lookupAssoc_setAssoc_self _ _ _, rfl⟩
  · have hforce : force = true := by
      rcases hearly with h | h
      · unfold isResident at h
        rw [hfg] at h
        simp at h
      · exact h
    subst hforce
    have hunl : _unload_internal model_id ⟨s.models, s.status, true⟩
        = (m.memory_mb,
           ⟨delModel model_id s.models,
            setAssoc model_id ⟨m.model_type, .not_loaded, none, none⟩
              (setAssoc model_id ⟨m.model_type, .unloading, none, none⟩ s.status), true⟩,
           [.unload_model model_id m.model_type]) := by
      unfold _unload_internal
      dsimp only
      rw [hfg]
    rw [hunl]
    dsimp only
    rw [ensure_no_evict total other memory_estimate (some model_id)
      ⟨delModel model_id s.models,
        setAssoc model_id ⟨model_type, .loading, none, none⟩
          (setAssoc model_id ⟨m.model_type, .not_loaded, none, none⟩
            (setAssoc model_id ⟨m.model_type, .unloading, none, none⟩ s.status)), true⟩ hmem]
    refine ⟨⟨delModel model_id s.models,
        setAssoc model_id ⟨model_type, .error, some msg, none⟩
          (setAssoc model_id ⟨model_type, .loading, none, none⟩
            (setAssoc model_id ⟨m.model_type, .not_loaded, none, none⟩
              (setAssoc model_id ⟨m.model_type, .unloading, none, none⟩ s.status))), false⟩,
      [.unload_model model_id m.model_type, .load_model model_id model_type],
      ?_, ?_, lookupAssoc_setAssoc_self _ _ _, rfl⟩
    · rfl
    · unfold isResident
      rw [getModel_delModel_self]
      rfl

/-- Witness for C7: a force-free load of a fresh id into an empty
orchestrator whose loader raises. -/
theorem c7_load_error_records_status_witness :
    ∃ s' tr, load 10000 0 5000 (.error "boom") "modelX" .llm false 7
        (⟨[], [], false⟩ : OrchState) = .ok (.error "boom", s', tr) ∧
      isResident "modelX" s'.models = false ∧
      lookupAssoc "modelX" s'.status = some ⟨.llm, .error, some "boom", none⟩ ∧
      s'.lockHeld = false :=
  c7_load_error_records_status 10000 0 5000 "boom" "modelX" .llm false 7 ⟨[], [], false⟩
    rfl (Or.inl rfl) (Or.inr rfl)

/-! C2: LRU eviction order (the eviction walk run with the lock free) -/

instance : IsTotal LoadedModel (fun a b => a.last_used ≤ b.last_used) :=
  ⟨fun a b => Nat.le_total a.last_used b.last_used⟩

instance : IsTrans LoadedModel (fun a b => a.last_used ≤ b.last_used) :=
  ⟨fun _ _ _ h1 h2 => Nat.le_trans h1 h2⟩

/-- The registry left after unloading the given victims in order. -/
def modelsAfterEvict (ms : List LoadedModel) (victims : List LoadedModel) :
    List LoadedModel :=
  victims.foldl (fun acc v => delModel v.model_id acc) ms

/-- How many candidates the eviction walk unloads before stopping. -/
def evictPrefixLen (total other required : ℚ) :
    List LoadedModel → List LoadedModel → Nat
  | _, [] => 0
  | ms, c :: rest =>
    if GpuFree total other ms ≥ required then 0
    else evictPrefixLen total other required (delModel c.model_id ms) rest + 1

theorem evictPrefixLen_not_enough (total other required : ℚ) :
    ∀ (cands ms : List LoadedModel) (j : Nat),
      j < evictPrefixLen total other required ms cands →
      ¬ GpuFree total other (modelsAfterEvict ms (cands.take j)) ≥ required := by
  intro cands
  induction cands with
  | nil =>
    intro ms j hj
    simp [evictPrefixLen] at hj
  | cons c rest ih =>
    intro ms j hj
    unfold evictPrefixLen at hj
    by_cases hfree : GpuFree total other ms ≥ required
    · rw [if_pos hfree] at hj
      cases hj
    · rw [if_neg hfree] at hj
      cases j with
      | zero => exact hfree
      | succ j =>
        rw [List.take_succ_cons]
        show ¬ GpuFree total other
          (modelsAfterEvict (delModel c.model_id ms) (rest.take j)) ≥ required
        exact ih (delModel c.model_id ms) j (by omega)

theorem evictPrefixLen_stop (total other required : ℚ) :
    ∀ (cands ms : List LoadedModel),
      evictPrefixLen total other required ms cands < cands.length →
      GpuFree total other
        (modelsAfterEvict ms (cands.take (evictPrefixLen total other required ms cands)))
        ≥ required := by
  intro cands
  induction cands with
  | nil =>
    intro ms h
    simp at h
  | cons c rest ih =>
    intro ms h
    unfold evictPrefixLen at h ⊢
    by_cases hfree : GpuFree total other ms ≥ required
    · rw [if_pos hfree]
      exact hfree
    · rw [if_neg hfree] at h ⊢
      rw [List.take_succ_cons]
      show GpuFree total other
        (modelsAfterEvict (delModel c.model_id ms)
          (rest.take (evictPrefixLen total other required (delModel c.model_id ms) rest)))
        ≥ required
      refine ih (delModel c.model_id ms) ?_
      rw [List.length_cons] at h
      omega

theorem unload_noLock (model_id : String) (ms : List LoadedModel)
    (st : List (String × StatusInfo)) :
    ∃ st' freed tr, unload model_id (⟨ms, st, false⟩ : OrchState)
      = .ok (freed, ⟨delModel model_id ms, st', false⟩, tr) := by
  unfold unload
  rw [if_neg (by exact Bool.false_ne_true)]
  unfold _unload_internal
  dsimp only
  cases hg : getModel model_id ms with
  | none =>
    refine ⟨st, 0, [], ?_⟩
    rw [delModel_of_not_resident model_id ms (by unfold isResident; rw [hg]; rfl)]
  | some mc =>
    exact ⟨setAssoc model_id ⟨mc.model_type, .not_loaded, none, none⟩
      (setAssoc model_id ⟨mc.model_type, .unloading, none, none⟩ st),
      mc.memory_mb, [.unload_model model_id mc.model_type], rfl⟩

theorem evictLoop_spec (total other required : ℚ) :
    ∀ (cands ms : List LoadedModel) (st : List (String × StatusInfo)),
      ∃ s' tr,
        evictLoop total other required cands (⟨ms, st, false⟩ : OrchState)
          = .ok (s',
              ((cands.take (evictPrefixLen total other required ms cands)).map
                (fun m => m.model_id), tr)) := by
  intro cands
  induction cands with
  | nil =>
    intro ms st
    exact ⟨⟨ms, st, false⟩, [], rfl⟩
  | cons c rest ih =>
    intro ms st
    unfold evictLoop evictPrefixLen
    by_cases hfree : GpuFree total other ms ≥ required
    · rw [if_pos (show GpuFree total other
          ((⟨ms, st, false⟩ : OrchState)).models ≥ required from hfree),
        if_pos hfree]
      exact ⟨⟨ms, st, false⟩, [], rfl⟩
    · rw [if_neg (show ¬ GpuFree total other
          ((⟨ms, st, false⟩ : OrchState)).models ≥ required from hfree),
        if_neg hfree]
      obtain ⟨st', freed, tr1, hunl⟩ := unload_noLock c.model_id ms st
      rw [hunl]
      dsimp only
      obtain ⟨s', tr2, hrec⟩ := ih (delModel c.model_id ms) st'
      rw [hrec]
      rw [List.take_succ_cons, List.map_cons]
      exact ⟨s', tr1 ++ tr2, rfl⟩

/-- C2: a call of the eviction walk of `ensure_memory_available` (run with
the orchestrator lock free; from inside `load` it deadlocks instead — C1)
in a state that needs memory and has at least one eviction candidate:
at least one victim is unloaded; the victims are a prefix of the candidate
list sorted ascending by `last_used`, so the first victim is a candidate
with the smallest `last_used` and victims fall in ascending `last_used`
order; and the walk unloads a further victim only while free memory is
still short, stopping as soon as it suffices. -/
theorem c2_lru_eviction_order (total other required_mb : ℚ) (exclude : Option String)
    (s : OrchState)
    (hlock : s.lockHeld = false)
    (hdist : ((s.models.filter (fun m => !(some m.model_id == exclude))).map
        (fun m => m.last_used)).Nodup)
    (hneed : ¬ GpuFree total other s.models ≥ required_mb)
    (hcand : s.models.filter (fun m => !(some m.model_id == exclude)) ≠ []) :
    ∃ s' tr k,
      ensure_memory_available total other required_mb exclude s
        = .ok (s', ((sortCandidates exclude s.models).take k).map (fun m => m.model_id),
            tr) ∧
      1 ≤ k ∧
      List.Sorted (fun a b => a.last_used ≤ b.last_used)
        ((sortCandidates exclude s.models).take k) ∧
      (∃ m0, ((sortCandidates exclude s.models).take k).head? = some m0 ∧
        m0 ∈ s.models ∧ (!(some m0.model_id == exclude)) = true ∧
        ∀ m ∈ s.models, (!(some m.model_id == exclude)) = true →
          m0.last_used ≤ m.last_used) ∧
      (∀ j, j < k → ¬ GpuFree total other
          (modelsAfterEvict s.models ((sortCandidates exclude s.models).take j))
          ≥ required_mb) ∧
      (k < (sortCandidates exclude s.models).length → GpuFree total other
          (modelsAfterEvict s.models ((sortCandidates exclude s.models).take k))
          ≥ required_mb) := by
  obtain ⟨ms, st, lh⟩ := s
  dsimp only at hlock hdist hneed hcand ⊢
  subst hlock
  have hsorted : List.Sorted (fun a b => a.last_used ≤ b.last_used)
      (sortCandidates exclude ms) :=
    List.sorted_insertionSort _ _
  have hperm : List.Perm (sortCandidates exclude ms)
      (ms.filter (fun m => !(some m.model_id == exclude))) :=
    List.perm_insertionSort _ _
  have hcnil : sortCandidates exclude ms ≠ [] := by
    intro hc
    have h2 : List.Perm (ms.filter (fun m => !(some m.model_id == exclude))) [] := by
      rw [← hc]
      exact hperm.symm
    exact hcand (List.Perm.eq_nil h2)
  unfold ensure_memory_available
  rw [if_neg hneed]
  obtain ⟨s', tr, hloop⟩ :=
    evictLoop_spec total other required_mb (sortCandidates exclude ms) ms st
  refine ⟨s', tr, evictPrefixLen total other required_mb ms (sortCandidates exclude ms),
    hloop, ?_, ?_, ?_, ?_, ?_⟩
  · rcases hc : sortCandidates exclude ms with _ | ⟨c, rest⟩
    · exact absurd hc hcnil
    · unfold evictPrefixLen
      rw [if_neg hneed]
      omega
  · exact hsorted.sublist (List.take_sublist _ _)
  · rcases hc : sortCandidates exclude ms with _ | ⟨c, rest⟩
    · exact absurd hc hcnil
    · have hk1 : 1 ≤ evictPrefixLen total other required_mb ms (c :: rest) := by
        unfold evictPrefixLen
        rw [if_neg hneed]
        omega
      refine ⟨c, ?_, ?_, ?_, ?_⟩
      · rcases hk : evictPrefixLen total other required_mb ms (c :: rest) with _ | k
        · omega
        · rw [List.take_succ_cons]
          rfl
      · have hmemc : c ∈ ms.filter (fun m => !(some m.model_id == exclude)) := by
          have : c ∈ sortCandidates exclude ms := by rw [hc]; exact List.mem_cons_self c rest
          exact hperm.subset this
        exact (List.mem_filter.mp hmemc).1
      · have hmemc : c ∈ ms.filter (fun m => !(some m.model_id == exclude)) := by
          have : c ∈ sortCandidates exclude ms := by rw [hc]; exact List.mem_cons_self c rest
          exact hperm.subset this
        exact (List.mem_filter.mp hmemc).2
      · intro m hm hmex
        have hmemf : m ∈ ms.filter (fun m => !(some m.model_id == exclude)) :=
          List.mem_filter.mpr ⟨hm, hmex⟩
        have hmemc : m ∈ sortCandidates exclude ms := hperm.symm.subset hmemf
        rw [hc] at hmemc
        rcases List.mem_cons.mp hmemc with h | h
        · rw [h]
        · rw [hc] at hsorted
          exact (List.pairwise_cons.mp hsorted).1 m h
  · intro j hj
    exact evictPrefixLen_not_enough total other required_mb
      (sortCandidates exclude ms) ms j hj
  · intro hlt
    exact evictPrefixLen_stop total other required_mb (sortCandidates exclude ms) ms hlt

/-- Two residents for the C2 witness scenario. -/
def c2State : OrchState :=
  { models := [{ model_id := "modelA", model_type := .llm, model_instance := 1,
                 memory_mb := 6000, loaded_at := 1, last_used := 1, metadata := [] },
               { model_id := "modelB", model_type := .image, model_instance := 2,
                 memory_mb := 3000, loaded_at := 2, last_used := 2, metadata := [] }],
    status := [], lockHeld := false }

/-- Witness for C2: the spec eviction scenario — residents A (6000 MB,
last_used 1) and B (3000 MB, last_used 2), 10000 MB total, 5000 MB
required for a third model. -/
theorem c2_lru_eviction_order_witness :
    ∃ s' tr k,
      ensure_memory_available 10000 0 5000 (some "modelC") c2State
        = .ok (s', ((sortCandidates (some "modelC") c2State.models).take k).map
            (fun m => m.model_id), tr) ∧
      1 ≤ k ∧
      List.Sorted (fun a b => a.last_used ≤ b.last_used)
        ((sortCandidates (some "modelC") c2State.models).take k) ∧
      (∃ m0, ((sortCandidates (some "modelC") c2State.models).take k).head? = some m0 ∧
        m0 ∈ c2State.models ∧ (!(some m0.model_id == some "modelC")) = true ∧
        ∀ m ∈ c2State.models, (!(some m.model_id == some "modelC")) = true →
          m0.last_used ≤ m.last_used) ∧
      (∀ j, j < k → ¬ GpuFree 10000 0
          (modelsAfterEvict c2State.models
            ((sortCandidates (some "modelC") c2State.models).take j)) ≥ 5000) ∧
      (k < (sortCandidates (some "modelC") c2State.models).length → GpuFree 10000 0
          (modelsAfterEvict c2State.models
            ((sortCandidates (some "modelC") c2State.models).take k)) ≥ 5000) :=
  c2_lru_eviction_order 10000 0 5000 (some "modelC") c2State rfl (by decide)
    (by norm_num [GpuFree, c2State]) (by decide)

end AiLab
